import Mathlib

/-!
Shallow embedding of `src/backend/ragService.js` (spendr expense tracker).

Conventions of the embedding:
* JavaScript numbers are modelled as rationals (`ℚ`); the amounts handled by
  the service are small decimals, for which JS `Number` arithmetic is exact.
* A JS value whose `Number(...)` coercion is `NaN` is modelled as `none`;
  a value coercing to the number `q` is modelled as `some q`.
* The month-label rendering — `toLocaleString` with the long-month and
  numeric-year options — is modelled for the default English locale with a
  UTC clock: an ISO
  `YYYY-MM-DD` string maps to `"<MonthName> <Year>"`, anything unparseable to
  `"Invalid Date"` (what `toLocaleString` prints for an invalid `Date`).
* The LLM (`model.invoke`) is modelled as an oracle `String → GenResp`
  mapping the prompt to either a thrown error (`GenResp.fault`) or a response
  whose optional `content` field is the payload.
-/

namespace Spendr

/-- Chroma metadata of one indexed expense, as stored by `buildEmbeddings`
and read back by `queryInsights`.  The `amount` field holds the result of JS
`Number` coercion of the stored amount: `none` models `NaN`. -/
structure Metadata where
  text : String
  note : String
  amount : Option ℚ
  date : String
  deriving DecidableEq, Repr

/-- The pipeline's working representation of one retrieved hit
(the objects pushed onto `expenses` in `queryInsights`). -/
structure RetrievedExpense where
  note : String
  amount : ℚ
  date : String
  deriving DecidableEq, Repr

/-- Model of the `results.metadatas.flat().forEach(...)` loop: coerce each hit's amount with
`Number`, keep the hit iff the coercion is not `NaN` (lines 112-124). -/
def toRetrieved : List Metadata → List RetrievedExpense
  | [] => []
  | m :: rest =>
    match m.amount with
    | some amt => { note := m.note, amount := amt, date := m.date } :: toRetrieved rest
    | none => toRetrieved rest

/-- Sentinel returned when no valid expense survives coercion (line 126). -/
def noValidSentinel : String := "⚠️ No valid expenses found for the query."

/-- Sentinel returned when the model produced no usable text (line 182). -/
def noMeaningfulSentinel : String := "⚠️ The model didn’t return meaningful insights."

/-- Addition on `ℚ`, spelled through `mkRat` so that concrete runs of the
model reduce inside the kernel (`Rat.add` is irreducible); proved equal to
`+` in `qadd_eq`. -/
def qadd (a b : ℚ) : ℚ := mkRat (a.num * b.den + b.num * a.den) (a.den * b.den)

/-- Subtraction on `ℚ` through `mkRat`; proved equal to `-` in `qsub_eq`. -/
def qsub (a b : ℚ) : ℚ := mkRat (a.num * b.den - b.num * a.den) (a.den * b.den)

theorem qadd_eq (a b : ℚ) : qadd a b = a + b := (Rat.add_def' a b).symm

theorem qsub_eq (a b : ℚ) : qsub a b = a - b := (Rat.sub_def' a b).symm

/-- Model of `Math.abs` on `ℚ`, spelled so that concrete runs reduce in the kernel. -/
def qabs (q : ℚ) : ℚ := mkRat (q.num.natAbs : ℤ) q.den

/-- Numeric value of a digit string (used after an `allDigits` guard). -/
def digitsToNat (l : List Char) : Nat :=
  l.foldl (fun n c => n * 10 + (c.toNat - 48)) 0

/-- Splitting at a one-character separator, by structural recursion
on the character list (so concrete runs reduce inside the kernel). -/
def splitOnChar (sep : Char) : List Char → List (List Char)
  | [] => [[]]
  | c :: rest =>
    match splitOnChar sep rest with
    | h :: t => if c = sep then [] :: h :: t else (c :: h) :: t
    | [] => [[c]]

/-- JS `String.prototype.trim` on the whitespace occurring here (space, tab,
carriage return, line feed). -/
def jsTrim (s : String) : String :=
  String.mk (((s.data.dropWhile Char.isWhitespace).reverse.dropWhile Char.isWhitespace).reverse)

/-- Model of `Array.prototype.join(sep)`. -/
def joinWith (sep : String) : List String → String
  | [] => ""
  | [s] => s
  | s :: rest => s ++ sep ++ joinWith sep rest

/-- English month name, used by the `toLocaleString` model (default locale). -/
def monthName : Nat → String
  | 1 => "January"
  | 2 => "February"
  | 3 => "March"
  | 4 => "April"
  | 5 => "May"
  | 6 => "June"
  | 7 => "July"
  | 8 => "August"
  | 9 => "September"
  | 10 => "October"
  | 11 => "November"
  | 12 => "December"
  | _ => ""

/-- Holds iff every character of `s` is an ASCII digit and `s` is nonempty. -/
def allDigits (s : String) : Bool :=
  !s.data.isEmpty && s.data.all (fun c => c.isDigit)

/-- Model of
the month-label rendering of line 133 — `toLocaleString` with the long-month
and numeric-year options — for the default English locale under UTC: an ISO `YYYY-MM-DD`
date whose day lies within the month yields `"<MonthName> <Year>"`; an
unparseable string yields `"Invalid Date"` (what `toLocaleString` prints
for an invalid `Date`).  Dates whose day component overflows the month are
outside the model. -/
def monthLabel (date : String) : String :=
  match (splitOnChar ('-') date.data).map String.mk with
  | [y, m, d] =>
    if allDigits y && allDigits m && allDigits d then
      let mn := digitsToNat m.data
      let dn := digitsToNat d.data
      if 1 ≤ mn && mn ≤ 12 && 1 ≤ dn && dn ≤ 31 then
        monthName mn ++ " " ++ toString (digitsToNat y.data)
      else "Invalid Date"
    else "Invalid Date"
  | _ => "Invalid Date"

/-- Model of `monthMap[month] = (monthMap[month] || 0) + amt` on a JS object modelled
as an insertion-ordered association list: add to the existing entry, or
append a fresh key at the end (JS string keys keep insertion order). -/
def upsertMonth : List (String × ℚ) → String → ℚ → List (String × ℚ)
  | [], k, v => [(k, v)]
  | (k0, v0) :: rest, k, v =>
    if k0 = k then (k0, qadd v0 v) :: rest else (k0, v0) :: upsertMonth rest k v

/-- Model of the `monthMap[month] || 0` read: value stored under a key, `0` when absent. -/
def lookupMonth : List (String × ℚ) → String → ℚ
  | [], _ => 0
  | (k0, v0) :: rest, k => if k = k0 then v0 else lookupMonth rest k

/-- One iteration of the `expenses.forEach` loop of lines 131-135:
`total += exp.amount` and the month-map update. -/
def aggStep (acc : ℚ × List (String × ℚ)) (e : RetrievedExpense) : ℚ × List (String × ℚ) :=
  let month := monthLabel e.date
  (qadd acc.1 e.amount, upsertMonth acc.2 month e.amount)

/-- The single `expenses.forEach` loop of lines 129-135: accumulates the
running total and the per-month map in one pass. -/
def aggregate (es : List RetrievedExpense) : ℚ × List (String × ℚ) :=
  es.foldl aggStep (0, [])

/-- The `total` variable after the aggregation loop. -/
def totalOf (es : List RetrievedExpense) : ℚ := (aggregate es).1

/-- The `monthMap` object after the aggregation loop. -/
def monthMapOf (es : List RetrievedExpense) : List (String × ℚ) := (aggregate es).2

/-- Model of `Object.keys` on the modelled month map (insertion order). -/
def keysOf (l : List (String × ℚ)) : List String := l.map Prod.fst

/-- Code-unit comparison of strings, the order used by JS default
`Array.prototype.sort` (coincides with code points on the ASCII labels
produced here). -/
def listCharLe : List Char → List Char → Bool
  | [], _ => true
  | _ :: _, [] => false
  | a :: as, b :: bs =>
    if a.toNat < b.toNat then true
    else if b.toNat < a.toNat then false
    else listCharLe as bs

/-- String `≤` in JS sort order. -/
def strLe (a b : String) : Bool := listCharLe a.data b.data

/-- Insert into an ascending list, keeping it ascending. -/
def insertSorted (s : String) : List String → List String
  | [] => [s]
  | t :: ts => if strLe s t then s :: t :: ts else t :: insertSorted s ts

/-- Model of `Object.keys(monthMap).sort()` — ascending lexicographic sort (the keys
are pairwise distinct, so any correct sort yields the same list). -/
def sortStrings (l : List String) : List String := l.foldr insertSorted []

/-- Model of `x.toFixed(2)` for the exact decimals handled here: print the sign of
`x`, then `|x|` rounded to the nearest hundredth (ties up) with exactly two
fraction digits.  `(200 * |num| + den) / (2 * den)` is `⌊100|x| + 1/2⌋`. -/
def toFixed2 (q : ℚ) : String :=
  let n : Nat := (200 * q.num.natAbs + q.den) / (2 * q.den)
  let sign := if q.num < 0 then "-" else ""
  let fp := n % 100
  let fpStr := if fp < 10 then "0" ++ toString fp else toString fp
  sign ++ toString (n / 100) ++ "." ++ fpStr

/-- Positional decimal rendering of a rational whose denominator divides a
power of ten — the values JS default number-to-string printing is exact on.
Falls back to `num/den` notation otherwise (never reached by the pipeline's
decimal amounts). -/
def ratToJsString (q : ℚ) : String :=
  let sign := if q.num < 0 then "-" else ""
  let n := q.num.natAbs
  let den := q.den
  match (List.range 21).find? (fun k => 10 ^ k % den = 0) with
  | some k =>
    let scaled := n * (10 ^ k) / den
    let ip := scaled / 10 ^ k
    let fp := scaled % 10 ^ k
    if fp = 0 then sign ++ toString ip
    else
      let fpDigits := List.replicate (k - (toString fp).data.length) ('0') ++ (toString fp).data
      let trimmed := String.mk (fpDigits.reverse.dropWhile (fun c => c = '0')).reverse
      sign ++ toString ip ++ "." ++ trimmed
  | none => sign ++ toString n ++ "/" ++ toString den

/-- The trend block of lines 137-144: sort the month keys, and when at least
two exist compare the last two, wording `higher` on `diff >= 0`. -/
def trendOf (es : List RetrievedExpense) : String :=
  let monthMap := monthMapOf es
  let months := sortStrings (keysOf monthMap)
  if 2 ≤ months.length then
    let lastMonth := months.getD (months.length - 2) ("")
    let thisMonth := months.getD (months.length - 1) ("")
    let diff := qsub (lookupMonth monthMap thisMonth) (lookupMonth monthMap lastMonth)
    let dir := if (0 : ℚ) ≤ diff then "higher" else "lower"
    "Compared to " ++ lastMonth ++ ", your spending in " ++ thisMonth ++
      " is " ++ dir ++ " by $" ++ toFixed2 (qabs diff) ++ "."
  else ""

/-- One bullet of the context block: `- ${e.note}: $${e.amount} on ${e.date}`. -/
def bulletOf (e : RetrievedExpense) : String :=
  "- " ++ e.note ++ ": $" ++ ratToJsString e.amount ++ " on " ++ e.date

/-- The `structuredContext` template literal of lines 146-152. -/
def structuredContext (es : List RetrievedExpense) : String :=
  "\nTop expenses:\n" ++ joinWith ("\n") (es.map bulletOf) ++
    "\n\nTotal spending: $" ++ toFixed2 (totalOf es) ++ "\n" ++ trendOf es ++ "\n"

/-- The primary prompt template of lines 155-165. -/
def mainPrompt (ctx : String) : String :=
  "\nYou are Spendr, a friendly personal finance AI assistant.\nHere is a summary of some recent expenses:\n\n"
    ++ ctx ++
    "\n\nPlease provide a clear, warm, and helpful insight, including:\n- Notable spending patterns\n- Month-over-month trend (if available)\n- 1-2 actionable suggestions to improve spending\n"

/-- The simplified retry prompt of line 176. -/
def simplePrompt (ctx : String) : String :=
  "Write a short, friendly summary of these expenses:\n" ++ ctx

/-- Outcome of one `model.invoke` call: a thrown provider fault, or a
response whose optional `content` field carries the text (`none` models a
null/undefined content). -/
inductive GenResp where
  | fault : GenResp
  | ok : Option String → GenResp
  deriving DecidableEq

/-- One left-to-right pass of `insight.replace(/<s>|\[OUT\]/g, "")`:
remove `<s>` and `[OUT]` wherever they match, never rescanning the output. -/
def stripMarkersAux : List Char → List Char
  | '<' :: 's' :: '>' :: rest => stripMarkersAux rest
  | '[' :: 'O' :: 'U' :: 'T' :: ']' :: rest => stripMarkersAux rest
  | c :: rest => c :: stripMarkersAux rest
  | [] => []

/-- One-pass global removal of the two marker substrings (line 172). -/
def stripMarkers (s : String) : String := String.mk (stripMarkersAux s.data)

/-- Strip the marker substrings, then trim (lines 172 and 179). -/
def cleanStr (s : String) : String := jsTrim (stripMarkers s)

/-- Model of the content read at line 171: empty when the content is
missing, its trim otherwise. -/
def contentToInsight : Option String → String
  | none => ""
  | some s => jsTrim s

/-- The part of `queryInsights` downstream of retrieval (lines 126-182),
given the flattened search-hit metadata and the LLM oracle.  Returns the JS
result (`Except.error` models an uncaught throw) paired with the list of
prompts sent to `model.invoke`, in call order. -/
def queryInsights (hits : List Metadata) (gen : String → GenResp) :
    Except Unit String × List String :=
  let expenses := toRetrieved hits
  if expenses.length = 0 then (Except.ok noValidSentinel, [])
  else
    let ctx := structuredContext expenses
    let p1 := mainPrompt ctx
    match gen p1 with
    | GenResp.fault => (Except.error (), [p1])
    | GenResp.ok c =>
      let insight1 := cleanStr (contentToInsight c)
      if insight1 = "" ∨ insight1.length < 10 then
        let p2 := simplePrompt ctx
        match gen p2 with
        | GenResp.fault => (Except.error (), [p1, p2])
        | GenResp.ok rc =>
          let r := contentToInsight rc
          let insight2 := if r = "" then insight1 else r
          let insight3 := cleanStr insight2
          (Except.ok (if insight3 = "" then noMeaningfulSentinel else insight3), [p1, p2])
      else
        (Except.ok (if insight1 = "" then noMeaningfulSentinel else insight1), [p1])

/-- One row of `SELECT id, note, amount, expense_date FROM expenses`; the
`numeric` amount arrives from the driver as a string. -/
structure ExpenseRow where
  id : Nat
  note : String
  amount : String
  expense_date : String
  deriving DecidableEq, Repr

/-- JS `Number` coercion of a string (`none` models `NaN`): whitespace-only
is `0`, otherwise an optionally signed decimal numeral, as produced by the
database driver for `numeric` values. -/
def jsNumber (s : String) : Option ℚ :=
  let t := jsTrim s
  if t = "" then some 0
  else
    let signBody : ℤ × List Char :=
      match t.data with
      | '-' :: rest => (-1, rest)
      | '+' :: rest => (1, rest)
      | l => (1, l)
    match (splitOnChar ('.') signBody.2).map String.mk with
    | [ip] =>
      if allDigits ip then some (mkRat (signBody.1 * digitsToNat ip.data) 1) else none
    | [ip, fp] =>
      if (allDigits ip || ip.data.isEmpty) && (allDigits fp || fp.data.isEmpty)
          && !(ip.data.isEmpty && fp.data.isEmpty) then
        let k := fp.data.length
        let units := digitsToNat ip.data * 10 ^ k + digitsToNat fp.data
        some (mkRat (signBody.1 * units) (10 ^ k))
      else none
    | _ => none

/-- The canonical display string of a record (lines 77 and 85). -/
def displayText (exp : ExpenseRow) : String :=
  "Expense: " ++ exp.note ++ ", Amount: $" ++ exp.amount ++ ", Date: " ++ exp.expense_date

/-- The metadata object stored by `collection.add` (lines 83-90). -/
def mkMetadata (exp : ExpenseRow) : Metadata :=
  { text := displayText exp
    note := exp.note
    amount := jsNumber exp.amount
    date := exp.expense_date }

/-- Store under a string id, overwriting any existing entry for that id. -/
def upsertIndex : List (String × Metadata) → String → Metadata → List (String × Metadata)
  | [], k, v => [(k, v)]
  | (k0, v0) :: rest, k, v =>
    if k0 = k then (k0, v) :: rest else (k0, v0) :: upsertIndex rest k v

/-- Modelled from the spec: the `{embedded: count, failed: count}` result
object of the §4.1 ingestion contract — the source's `buildEmbeddings`
builds no such object. -/
structure IngestCounts where
  embedded : Nat
  failed : Nat
  deriving DecidableEq, Repr

/-- State threaded through the ingestion loop: the vector index contents and
the ids logged by the per-record `catch` (line 94). -/
structure IngestState where
  index : List (String × Metadata)
  failedLog : List Nat
  deriving DecidableEq, Repr

/-- Body of the `for (const exp of expenses)` loop (lines 75-96): embed then
`collection.add`; a throw in either step is caught, the id is logged, and
the loop continues.  `embedOk`/`addOk` model whether the external calls
succeed for a given record. -/
def ingestStep (embedOk addOk : ExpenseRow → Bool) (st : IngestState) (exp : ExpenseRow) :
    IngestState :=
  if embedOk exp then
    if addOk exp then
      { st with index := upsertIndex st.index (toString exp.id) (mkMetadata exp) }
    else { st with failedLog := st.failedLog ++ [exp.id] }
  else { st with failedLog := st.failedLog ++ [exp.id] }

/-- Model of `buildEmbeddings` (lines 67-99) over the rows read from the store and
the given external-call behaviours, started from index contents `idx0`.
The third component is the JS return value: the function body has no
`return`, so it is `undefined` — `none`, never an `IngestCounts`. -/
def buildEmbeddings (rows : List ExpenseRow) (embedOk addOk : ExpenseRow → Bool)
    (idx0 : List (String × Metadata)) :
    IngestState × Option IngestCounts :=
  (rows.foldl (ingestStep embedOk addOk) { index := idx0, failedLog := [] }, none)

/-! ### Concrete inputs reused across several checks -/

/-- The spec's concrete scenario: two retrieved Coffee hits of $4.50 and
$5.00 dated in January and February 2024. -/
def hitsCoffee : List Metadata :=
  [{ text := "t", note := "Coffee", amount := some (mkRat 9 2), date := "2024-01-05" },
   { text := "t", note := "Coffee", amount := some (mkRat 5 1), date := "2024-02-03" }]

/-- A single raw hit whose metadata amount coerces to `NaN`. -/
def hitsCorrupt : List Metadata :=
  [{ text := "t", note := "Coffee", amount := none, date := "2024-01-05" }]

/-- An LLM oracle that always answers with the two-character text `hi`
(degenerate: shorter than 10 characters after cleaning). -/
def genHi : String → GenResp := fun _ => GenResp.ok (some "hi")

/-- An LLM oracle whose every call throws. -/
def genFaulty : String → GenResp := fun _ => GenResp.fault

/-! ### General lemmas about the embedding -/

theorem length_toRetrieved (ms : List Metadata) :
    (toRetrieved ms).length = ms.length - (ms.filter (fun m => m.amount.isNone)).length := by
  induction ms with
  | nil => rfl
  | cons m rest ih =>
    have hle : (rest.filter (fun m => m.amount.isNone)).length ≤ rest.length :=
      List.length_filter_le _ _
    cases h : m.amount with
    | some a =>
      simp only [toRetrieved, h, List.length_cons, List.filter_cons, Option.isNone_some,
        Bool.false_eq_true, if_false, ih]
      omega
    | none =>
      simp only [toRetrieved, h, List.length_cons, List.filter_cons, Option.isNone_none,
        if_true, List.length_cons, ih]
      omega

theorem mem_toRetrieved (ms : List Metadata) (e : RetrievedExpense) (he : e ∈ toRetrieved ms) :
    ∃ m ∈ ms, m.amount = some e.amount ∧ e.note = m.note ∧ e.date = m.date := by
  induction ms with
  | nil => cases he
  | cons m rest ih =>
    cases h : m.amount with
    | some a =>
      rw [toRetrieved, h] at he
      rcases List.mem_cons.mp he with rfl | hrest
      · exact ⟨m, List.mem_cons_self .., h, rfl, rfl⟩
      · obtain ⟨m', hm', hs⟩ := ih hrest
        exact ⟨m', List.mem_cons_of_mem _ hm', hs⟩
    | none =>
      rw [toRetrieved, h] at he
      obtain ⟨m', hm', hs⟩ := ih he
      exact ⟨m', List.mem_cons_of_mem _ hm', hs⟩

theorem lookupMonth_upsertMonth (l : List (String × ℚ)) (k : String) (v : ℚ) (k' : String) :
    lookupMonth (upsertMonth l k v) k' = lookupMonth l k' + if k' = k then v else 0 := by
  induction l with
  | nil =>
    by_cases h : k' = k <;> simp [upsertMonth, lookupMonth, h]
  | cons p rest ih =>
    obtain ⟨k0, v0⟩ := p
    by_cases h0 : k0 = k
    · subst h0
      by_cases h' : k' = k0 <;> simp [upsertMonth, lookupMonth, h', qadd_eq, add_comm]
    · by_cases h' : k' = k0
      · subst h'
        have : ¬ k' = k := fun h => h0 (h ▸ rfl)
        simp [upsertMonth, h0, lookupMonth, this]
      · simp [upsertMonth, h0, lookupMonth, h', ih]

theorem lookupMonth_aggregate_loop (es : List RetrievedExpense) :
    ∀ (t : ℚ) (m : List (String × ℚ)) (lbl : String),
      lookupMonth (es.foldl aggStep (t, m)).2 lbl
        = lookupMonth m lbl
            + ((es.filter fun e => monthLabel e.date == lbl).map fun e => e.amount).sum := by
  induction es with
  | nil => simp
  | cons e rest ih =>
    intro t m lbl
    rw [List.foldl_cons]
    by_cases h : monthLabel e.date = lbl
    · subst h
      simp only [aggStep, ih, lookupMonth_upsertMonth, List.filter_cons, beq_self_eq_true,
        if_true, List.map_cons, List.sum_cons, if_pos rfl]
      ring
    · have hb : (monthLabel e.date == lbl) = false := by
        simpa using h
      have h' : ¬ lbl = monthLabel e.date := fun hh => h hh.symm
      simp only [aggStep, ih, lookupMonth_upsertMonth, List.filter_cons, hb,
        Bool.false_eq_true, if_false, h', add_zero]

theorem total_aggregate_loop (es : List RetrievedExpense) :
    ∀ (t : ℚ) (m : List (String × ℚ)),
      (es.foldl aggStep (t, m)).1 = t + (es.map fun e => e.amount).sum := by
  induction es with
  | nil => simp
  | cons e rest ih =>
    intro t m
    rw [List.foldl_cons]
    simp only [aggStep, ih, qadd_eq, List.map_cons, List.sum_cons]
    ring

theorem totalOf_eq_sum (es : List RetrievedExpense) :
    totalOf es = (es.map fun e => e.amount).sum := by
  simpa using total_aggregate_loop es 0 []

theorem lookupMonth_monthMapOf (es : List RetrievedExpense) (lbl : String) :
    lookupMonth (monthMapOf es) lbl
      = ((es.filter fun e => monthLabel e.date == lbl).map fun e => e.amount).sum := by
  simpa [monthMapOf, aggregate, lookupMonth] using lookupMonth_aggregate_loop es 0 [] lbl

theorem mem_keysOf_upsertMonth (l : List (String × ℚ)) (k : String) (v : ℚ) (k' : String) :
    k' ∈ keysOf (upsertMonth l k v) ↔ k' ∈ keysOf l ∨ k' = k := by
  induction l with
  | nil => simp [upsertMonth, keysOf]
  | cons p rest ih =>
    obtain ⟨k0, v0⟩ := p
    by_cases h0 : k0 = k
    · subst h0
      simp only [upsertMonth, eq_self_iff_true, if_true, keysOf, List.map_cons, List.mem_cons]
      tauto
    · simp only [upsertMonth, if_neg h0, keysOf, List.map_cons, List.mem_cons]
      rw [show (List.map Prod.fst (upsertMonth rest k v)) = keysOf (upsertMonth rest k v) from rfl,
        ih]
      simp only [keysOf]
      tauto

theorem nodup_keysOf_upsertMonth (l : List (String × ℚ)) (k : String) (v : ℚ)
    (h : (keysOf l).Nodup) : (keysOf (upsertMonth l k v)).Nodup := by
  induction l with
  | nil => simp [upsertMonth, keysOf]
  | cons p rest ih =>
    obtain ⟨k0, v0⟩ := p
    simp only [keysOf, List.map_cons, List.nodup_cons] at h
    by_cases h0 : k0 = k
    · subst h0
      simpa [upsertMonth, keysOf, List.nodup_cons] using h
    · simp only [upsertMonth, if_neg h0, keysOf, List.map_cons, List.nodup_cons]
      refine ⟨?_, ih h.2⟩
      rw [show (List.map Prod.fst (upsertMonth rest k v)) = keysOf (upsertMonth rest k v) from rfl,
        mem_keysOf_upsertMonth]
      rintro (hm | rfl)
      · exact h.1 hm
      · exact h0 rfl

theorem mem_keysOf_aggregate_loop (es : List RetrievedExpense) :
    ∀ (t : ℚ) (m : List (String × ℚ)) (k : String),
      k ∈ keysOf (es.foldl aggStep (t, m)).2
        ↔ k ∈ keysOf m ∨ ∃ e ∈ es, monthLabel e.date = k := by
  induction es with
  | nil => simp
  | cons e rest ih =>
    intro t m k
    rw [List.foldl_cons]
    simp only [aggStep, ih, mem_keysOf_upsertMonth, List.mem_cons]
    constructor
    · rintro ((hm | rfl) | ⟨e', he', rfl⟩)
      · exact Or.inl hm
      · exact Or.inr ⟨e, Or.inl rfl, rfl⟩
      · exact Or.inr ⟨e', Or.inr he', rfl⟩
    · rintro (hm | ⟨e', (rfl | he'), rfl⟩)
      · exact Or.inl (Or.inl hm)
      · exact Or.inl (Or.inr rfl)
      · exact Or.inr ⟨e', he', rfl⟩

theorem nodup_keysOf_aggregate_loop (es : List RetrievedExpense) :
    ∀ (t : ℚ) (m : List (String × ℚ)), (keysOf m).Nodup →
      (keysOf (es.foldl aggStep (t, m)).2).Nodup := by
  induction es with
  | nil => intro t m hm; simpa using hm
  | cons e rest ih =>
    intro t m hm
    rw [List.foldl_cons]
    exact ih _ _ (nodup_keysOf_upsertMonth _ _ _ hm)

theorem mem_keysOf_monthMapOf (es : List RetrievedExpense) (k : String) :
    k ∈ keysOf (monthMapOf es) ↔ ∃ e ∈ es, monthLabel e.date = k := by
  simpa [monthMapOf, aggregate, keysOf] using mem_keysOf_aggregate_loop es 0 [] k

theorem nodup_keysOf_monthMapOf (es : List RetrievedExpense) :
    (keysOf (monthMapOf es)).Nodup := by
  exact nodup_keysOf_aggregate_loop es 0 [] (by simp [keysOf])

theorem length_insertSorted (s : String) (l : List String) :
    (insertSorted s l).length = l.length + 1 := by
  induction l with
  | nil => rfl
  | cons t ts ih =>
    by_cases h : strLe s t = true
    · simp [insertSorted, h]
    · simp [insertSorted, h, ih]

theorem length_sortStrings (l : List String) : (sortStrings l).length = l.length := by
  unfold sortStrings
  induction l with
  | nil => rfl
  | cons s rest ih => rw [List.foldr_cons, length_insertSorted, ih, List.length_cons]

theorem ne_empty_of_length_pos (s : String) (h : 0 < s.length) : s ≠ "" := by
  intro hc
  subst hc
  simp at h

theorem trendOf_ne_empty_iff (es : List RetrievedExpense) :
    trendOf es ≠ "" ↔ 2 ≤ (keysOf (monthMapOf es)).length := by
  rw [trendOf]
  by_cases h : 2 ≤ (sortStrings (keysOf (monthMapOf es))).length
  · simp only [if_pos h]
    rw [length_sortStrings] at h
    simp only [h, iff_true]
    apply ne_empty_of_length_pos
    have h1 : 0 < "Compared to ".length := by decide
    simp only [String.length_append]
    omega
  · simp only [if_neg h]
    rw [length_sortStrings] at h
    simp [h]

theorem two_distinct_labels_iff (es : List RetrievedExpense) :
    2 ≤ (keysOf (monthMapOf es)).length
      ↔ ∃ e1 ∈ es, ∃ e2 ∈ es, monthLabel e1.date ≠ monthLabel e2.date := by
  constructor
  · intro h2
    have hnd := nodup_keysOf_monthMapOf es
    match hk : keysOf (monthMapOf es) with
    | [] => rw [hk] at h2; simp at h2
    | [k] => rw [hk] at h2; simp at h2
    | k1 :: k2 :: ks =>
      rw [hk] at hnd
      have hne : k1 ≠ k2 := by
        simp only [List.nodup_cons, List.mem_cons] at hnd
        exact fun hc => hnd.1 (Or.inl hc)
      have h1 : k1 ∈ keysOf (monthMapOf es) := by rw [hk]; simp
      have h2' : k2 ∈ keysOf (monthMapOf es) := by rw [hk]; simp
      obtain ⟨e1, he1, hl1⟩ := (mem_keysOf_monthMapOf es k1).mp h1
      obtain ⟨e2, he2, hl2⟩ := (mem_keysOf_monthMapOf es k2).mp h2'
      exact ⟨e1, he1, e2, he2, by rw [hl1, hl2]; exact hne⟩
  · rintro ⟨e1, he1, e2, he2, hne⟩
    have h1 : monthLabel e1.date ∈ keysOf (monthMapOf es) :=
      (mem_keysOf_monthMapOf es _).mpr ⟨e1, he1, rfl⟩
    have h2 : monthLabel e2.date ∈ keysOf (monthMapOf es) :=
      (mem_keysOf_monthMapOf es _).mpr ⟨e2, he2, rfl⟩
    match hk : keysOf (monthMapOf es) with
    | [] => rw [hk] at h1; cases h1
    | [k] =>
      rw [hk] at h1 h2
      simp only [List.mem_singleton] at h1 h2
      exact absurd (h1.trans h2.symm) hne
    | k1 :: k2 :: ks =>
      simp only [List.length_cons]
      omega

/-! ### Claim theorems -/

/-- C1: when retrieval yields zero valid `RetrievedExpense`, `queryInsights`
returns the "no valid expenses found" sentinel at once and the generator is
never invoked (the list of issued prompts is empty). -/
theorem queryInsights_empty_sentinel (hits : List Metadata) (gen : String → GenResp)
    (h : toRetrieved hits = []) :
    queryInsights hits gen = (Except.ok noValidSentinel, []) := by
  simp [queryInsights, h]

/-- Witness for C1: one corrupt-amount hit, with an oracle that would throw
if consulted. -/
theorem queryInsights_empty_sentinel_witness :
    toRetrieved hitsCorrupt = []
    ∧ queryInsights hitsCorrupt genFaulty = (Except.ok noValidSentinel, []) :=
  ⟨by decide, queryInsights_empty_sentinel hitsCorrupt genFaulty (by decide)⟩

/-- C5: hits whose metadata amount coerces to `NaN` are excluded, never
zeroed: the retrieved count is the raw count minus the corrupt count, and
every kept hit carries exactly the numeric coercion of its metadata
amount. -/
theorem toRetrieved_spec (ms : List Metadata) :
    (toRetrieved ms).length = ms.length - (ms.filter (fun m => m.amount.isNone)).length
    ∧ ∀ e ∈ toRetrieved ms, ∃ m ∈ ms, m.amount = some e.amount ∧ e.note = m.note ∧ e.date = m.date :=
  ⟨length_toRetrieved ms, fun e he => mem_toRetrieved ms e he⟩

/-- C2: on any non-empty valid retrieved list, the aggregation loop's total
is the exact arithmetic sum of all amounts (a single record gives exactly
its amount), and each month-label's map value is the sum of the amounts of
precisely the records whose date maps to that label. -/
theorem aggregate_totals_and_groups (es : List RetrievedExpense) (_hne : es ≠ []) :
    totalOf es = (es.map fun e => e.amount).sum
    ∧ (∀ e : RetrievedExpense, totalOf [e] = e.amount)
    ∧ ∀ lbl : String,
        lookupMonth (monthMapOf es) lbl
          = ((es.filter fun e => monthLabel e.date == lbl).map fun e => e.amount).sum := by
  refine ⟨totalOf_eq_sum es, fun e => ?_, fun lbl => lookupMonth_monthMapOf es lbl⟩
  simp [totalOf_eq_sum]

/-- Witness for C2 at the Coffee scenario, evaluated at the January label
and at the single-record list. -/
theorem aggregate_totals_and_groups_witness :
    totalOf (toRetrieved hitsCoffee) = ((toRetrieved hitsCoffee).map fun e => e.amount).sum
    ∧ totalOf [({ note := "Coffee", amount := mkRat 9 2, date := "2024-01-05" } : RetrievedExpense)]
        = ({ note := "Coffee", amount := mkRat 9 2, date := "2024-01-05" } : RetrievedExpense).amount
    ∧ lookupMonth (monthMapOf (toRetrieved hitsCoffee)) "January 2024"
        = (((toRetrieved hitsCoffee).filter fun e => monthLabel e.date == "January 2024").map
            fun e => e.amount).sum :=
  ⟨(aggregate_totals_and_groups (toRetrieved hitsCoffee) (by decide)).1,
   (aggregate_totals_and_groups (toRetrieved hitsCoffee) (by decide)).2.1 _,
   (aggregate_totals_and_groups (toRetrieved hitsCoffee) (by decide)).2.2 "January 2024"⟩

/-- C3: on any non-empty valid retrieved list, a (nonempty) trend sentence
is produced iff two hits carry distinct month-labels; in particular any two
hits dated in the same month yield the empty trend sentence. -/
theorem trend_iff_two_months (es : List RetrievedExpense) (_hne : es ≠ []) :
    ((trendOf es ≠ "") ↔ ∃ e1 ∈ es, ∃ e2 ∈ es, monthLabel e1.date ≠ monthLabel e2.date)
    ∧ ∀ e1 e2 : RetrievedExpense,
        monthLabel e1.date = monthLabel e2.date → trendOf [e1, e2] = "" := by
  constructor
  · exact (trendOf_ne_empty_iff es).trans (two_distinct_labels_iff es)
  · intro e1 e2 heq
    by_contra hne
    have h := ((trendOf_ne_empty_iff [e1, e2]).trans (two_distinct_labels_iff [e1, e2])).mp hne
    obtain ⟨a, ha, b, hb, hab⟩ := h
    have la : monthLabel a.date = monthLabel e1.date := by
      rcases List.mem_cons.mp ha with rfl | ha'
      · rfl
      · rcases List.mem_cons.mp ha' with rfl | h'
        · exact heq.symm
        · cases h'
    have lb : monthLabel b.date = monthLabel e1.date := by
      rcases List.mem_cons.mp hb with rfl | hb'
      · rfl
      · rcases List.mem_cons.mp hb' with rfl | h'
        · exact heq.symm
        · cases h'
    exact hab (la.trans lb.symm)

/-- Witness for C3: the two Coffee hits span January and February, so a
trend sentence is produced; two same-month hits yield none. -/
theorem trend_iff_two_months_witness :
    ((trendOf (toRetrieved hitsCoffee) ≠ "")
      ↔ ∃ e1 ∈ toRetrieved hitsCoffee, ∃ e2 ∈ toRetrieved hitsCoffee,
          monthLabel e1.date ≠ monthLabel e2.date)
    ∧ trendOf [({ note := "a", amount := mkRat 3 1, date := "2024-01-05" } : RetrievedExpense),
               ({ note := "b", amount := mkRat 4 1, date := "2024-01-20" } : RetrievedExpense)]
        = "" :=
  ⟨(trend_iff_two_months (toRetrieved hitsCoffee) (by decide)).1,
   (trend_iff_two_months (toRetrieved hitsCoffee) (by decide)).2 _ _ (by decide)⟩

/-- C4 counterexample: on the spec's Coffee scenario the code's trend
sentence attributes "lower" to January (the lexicographically later label),
not "higher" to February (the more recent month) as the claim states. -/
theorem coffee_trend_counterexample :
    trendOf (toRetrieved hitsCoffee)
        = "Compared to February 2024, your spending in January 2024 is lower by $0.50."
    ∧ trendOf (toRetrieved hitsCoffee)
        ≠ "Compared to January 2024, your spending in February 2024 is higher by $0.50." := by
  constructor
  · decide
  · decide

/-- C4 amended: total 9.50 and labels January/February 2024 as claimed, but
the labels sort lexicographically as [February, January], so the sentence
compares against February and reports January as lower by $0.50. -/
theorem coffee_scenario_amended :
    totalOf (toRetrieved hitsCoffee) = mkRat 19 2
    ∧ keysOf (monthMapOf (toRetrieved hitsCoffee)) = ["January 2024", "February 2024"]
    ∧ sortStrings (keysOf (monthMapOf (toRetrieved hitsCoffee)))
        = ["February 2024", "January 2024"]
    ∧ trendOf (toRetrieved hitsCoffee)
        = "Compared to February 2024, your spending in January 2024 is lower by $0.50." := by
  refine ⟨by decide, by decide, by decide, by decide⟩

/-- C10: with exactly two distinct month-labels whose per-month sums are
equal, the sentence reports the later-sorted month as "higher" by $0.00
(`diff >= 0` selects "higher" at zero). -/
theorem trend_equal_months_higher_zero (es : List RetrievedExpense) (a b : String)
    (hsort : sortStrings (keysOf (monthMapOf es)) = [a, b])
    (heq : lookupMonth (monthMapOf es) a = lookupMonth (monthMapOf es) b) :
    trendOf es = "Compared to " ++ a ++ ", your spending in " ++ b ++ " is higher by $0.00." := by
  rw [trendOf, hsort]
  have hq : qsub (lookupMonth (monthMapOf es) b) (lookupMonth (monthMapOf es) a) = 0 := by
    rw [qsub_eq, heq, sub_self]
  simp only [List.length_cons, List.length_nil, List.getD, Nat.reduceAdd, Nat.reduceSub,
    List.get?_eq_getElem?, List.getElem?_cons_zero, List.getElem?_cons_succ,
    Option.getD_some, hq]
  norm_num
  have hfix : toFixed2 (qabs 0) = "0.00" := by decide
  have ht : " is " ++ ("higher" ++ (" by $" ++ ("0.00" ++ "."))) = " is higher by $0.00." := by
    decide
  rw [hfix]
  simp only [String.append_assoc, ht]

/-- Witness for C10: two $5.00 hits in January and February 2024. -/
theorem trend_equal_months_higher_zero_witness :
    trendOf (toRetrieved
        [({ text := "t", note := "Coffee", amount := some (mkRat 5 1), date := "2024-01-05" } : Metadata),
         ({ text := "t", note := "Tea", amount := some (mkRat 5 1), date := "2024-02-03" } : Metadata)])
      = "Compared to " ++ "February 2024" ++ ", your spending in " ++ "January 2024"
          ++ " is higher by $0.00." :=
  trend_equal_months_higher_zero _ "February 2024" "January 2024" (by decide) (by decide)

/-- Witness for C5 at the Coffee scenario plus one corrupt hit. -/
theorem toRetrieved_spec_witness :
    (toRetrieved (hitsCoffee ++ hitsCorrupt)).length
        = (hitsCoffee ++ hitsCorrupt).length
            - ((hitsCoffee ++ hitsCorrupt).filter (fun m => m.amount.isNone)).length
    ∧ ∃ m ∈ hitsCoffee ++ hitsCorrupt,
        m.amount = some ({ note := "Coffee", amount := mkRat 9 2, date := "2024-01-05" } : RetrievedExpense).amount
        ∧ ({ note := "Coffee", amount := mkRat 9 2, date := "2024-01-05" } : RetrievedExpense).note = m.note
        ∧ ({ note := "Coffee", amount := mkRat 9 2, date := "2024-01-05" } : RetrievedExpense).date = m.date :=
  ⟨(toRetrieved_spec (hitsCoffee ++ hitsCorrupt)).1,
   (toRetrieved_spec (hitsCoffee ++ hitsCorrupt)).2 _ (by decide)⟩

theorem simplePrompt_length_lt_mainPrompt (ctx : String) :
    (simplePrompt ctx).length < (mainPrompt ctx).length := by
  have h :
      ("Write a short, friendly summary of these expenses:\n").length
        < ("\nYou are Spendr, a friendly personal finance AI assistant.\nHere is a summary of some recent expenses:\n\n").length := by
    decide
  simp only [simplePrompt, mainPrompt, String.length_append]
  omega

/-- C6: when the primary response cleans to a degenerate string (empty or
shorter than 10 characters) and both generator calls succeed, exactly one
retry is issued with the shorter context-only prompt, the retry output gets
the same strip-and-trim, the retry result is preferred when non-empty
(otherwise the original is kept), and an empty final result becomes the "no
meaningful insight" sentinel; moreover no run ever makes more than two
generator calls. -/
theorem degenerate_retry_policy :
    (∀ (hits : List Metadata) (gen : String → GenResp) (c rc : Option String),
      toRetrieved hits ≠ [] →
      gen (mainPrompt (structuredContext (toRetrieved hits))) = GenResp.ok c →
      (cleanStr (contentToInsight c) = "" ∨ (cleanStr (contentToInsight c)).length < 10) →
      gen (simplePrompt (structuredContext (toRetrieved hits))) = GenResp.ok rc →
      (queryInsights hits gen).2
          = [mainPrompt (structuredContext (toRetrieved hits)),
             simplePrompt (structuredContext (toRetrieved hits))]
        ∧ (simplePrompt (structuredContext (toRetrieved hits))).length
            < (mainPrompt (structuredContext (toRetrieved hits))).length
        ∧ (queryInsights hits gen).1
            = Except.ok
                (if cleanStr (if contentToInsight rc = "" then cleanStr (contentToInsight c)
                              else contentToInsight rc) = ""
                 then noMeaningfulSentinel
                 else cleanStr (if contentToInsight rc = "" then cleanStr (contentToInsight c)
                                else contentToInsight rc)))
    ∧ ∀ (hits : List Metadata) (gen : String → GenResp),
        (queryInsights hits gen).2.length ≤ 2 := by
  constructor
  · intro hits gen c rc hne hg1 hdeg hg2
    have hlen : ¬ (toRetrieved hits).length = 0 := by
      simpa [List.length_eq_zero] using hne
    refine ⟨?_, simplePrompt_length_lt_mainPrompt _, ?_⟩ <;>
      simp only [queryInsights, if_neg hlen, hg1, hg2, if_pos hdeg]
  · intro hits gen
    by_cases h0 : (toRetrieved hits).length = 0
    · simp [queryInsights, h0]
    · simp only [queryInsights, if_neg h0]
      cases hg : gen (mainPrompt (structuredContext (toRetrieved hits))) with
      | fault => simp
      | ok c =>
        by_cases hdeg :
            cleanStr (contentToInsight c) = "" ∨ (cleanStr (contentToInsight c)).length < 10
        · simp only [if_pos hdeg]
          cases hg2 : gen (simplePrompt (structuredContext (toRetrieved hits))) <;> simp
        · simp only [if_neg hdeg]
          simp

/-- Witness for C6: the Coffee scenario with an oracle that always answers
`hi` (degenerate), instantiated at both generator calls. -/
theorem degenerate_retry_policy_witness :
    ((queryInsights hitsCoffee genHi).2
        = [mainPrompt (structuredContext (toRetrieved hitsCoffee)),
           simplePrompt (structuredContext (toRetrieved hitsCoffee))]
      ∧ (simplePrompt (structuredContext (toRetrieved hitsCoffee))).length
          < (mainPrompt (structuredContext (toRetrieved hitsCoffee))).length
      ∧ (queryInsights hitsCoffee genHi).1
          = Except.ok
              (if cleanStr (if contentToInsight (some "hi") = ""
                            then cleanStr (contentToInsight (some "hi"))
                            else contentToInsight (some "hi")) = ""
               then noMeaningfulSentinel
               else cleanStr (if contentToInsight (some "hi") = ""
                              then cleanStr (contentToInsight (some "hi"))
                              else contentToInsight (some "hi"))))
    ∧ (queryInsights hitsCoffee genHi).2.length ≤ 2 :=
  ⟨degenerate_retry_policy.1 hitsCoffee genHi (some "hi") (some "hi")
      (by decide) rfl (by decide) rfl,
   degenerate_retry_policy.2 hitsCoffee genHi⟩

/-- C9 counterexample: with a nonempty retrieved set and a primary
generation fault, the fault surfaces immediately — only one prompt was ever
sent, so the retry was never attempted, contradicting "a fault on the
primary generation call alone does not propagate without the retry being
attempted". -/
theorem primary_fault_propagates_without_retry :
    (queryInsights hitsCoffee genFaulty).1 = Except.error ()
    ∧ (queryInsights hitsCoffee genFaulty).2
        = [mainPrompt (structuredContext (toRetrieved hitsCoffee))] := by
  constructor
  · rfl
  · rfl

/-- C9 amended: a generation fault surfaces iff the primary call faults
(immediately, with no retry), or the primary call succeeds with degenerate
output and the single retry faults; only degenerate-but-successful output
triggers the retry. -/
theorem generation_fault_surfacing (hits : List Metadata) (gen : String → GenResp)
    (hne : toRetrieved hits ≠ []) :
    (queryInsights hits gen).1 = Except.error ()
      ↔ (gen (mainPrompt (structuredContext (toRetrieved hits))) = GenResp.fault
         ∨ ∃ c : Option String,
             gen (mainPrompt (structuredContext (toRetrieved hits))) = GenResp.ok c
             ∧ (cleanStr (contentToInsight c) = ""
                ∨ (cleanStr (contentToInsight c)).length < 10)
             ∧ gen (simplePrompt (structuredContext (toRetrieved hits))) = GenResp.fault) := by
  have hlen : ¬ (toRetrieved hits).length = 0 := by
    simpa [List.length_eq_zero] using hne
  simp only [queryInsights, if_neg hlen]
  cases hg : gen (mainPrompt (structuredContext (toRetrieved hits))) with
  | fault => simp
  | ok c =>
    by_cases hdeg :
        cleanStr (contentToInsight c) = "" ∨ (cleanStr (contentToInsight c)).length < 10
    · simp only [if_pos hdeg]
      cases hg2 : gen (simplePrompt (structuredContext (toRetrieved hits))) with
      | fault => simp [hdeg]
      | ok rc => simp [hdeg]
    · simp only [if_neg hdeg]
      simp [hdeg]

/-- Witness for C9's amended statement: primary fault on the Coffee
scenario. -/
theorem generation_fault_surfacing_witness :
    (queryInsights hitsCoffee genFaulty).1 = Except.error ()
      ↔ (genFaulty (mainPrompt (structuredContext (toRetrieved hitsCoffee))) = GenResp.fault
         ∨ ∃ c : Option String,
             genFaulty (mainPrompt (structuredContext (toRetrieved hitsCoffee))) = GenResp.ok c
             ∧ (cleanStr (contentToInsight c) = ""
                ∨ (cleanStr (contentToInsight c)).length < 10)
             ∧ genFaulty (simplePrompt (structuredContext (toRetrieved hitsCoffee)))
                 = GenResp.fault) :=
  generation_fault_surfacing hitsCoffee genFaulty (by decide)

theorem mem_keys_upsertIndex_self (l : List (String × Metadata)) (k : String) (v : Metadata) :
    k ∈ (upsertIndex l k v).map Prod.fst := by
  induction l with
  | nil => simp [upsertIndex]
  | cons p rest ih =>
    obtain ⟨k0, v0⟩ := p
    by_cases h : k0 = k
    · subst h; simp [upsertIndex]
    · simp only [upsertIndex, if_neg h, List.map_cons, List.mem_cons]
      exact Or.inr ih

theorem mem_keys_upsertIndex_of_mem (l : List (String × Metadata)) (k k' : String) (v : Metadata)
    (h : k ∈ l.map Prod.fst) : k ∈ (upsertIndex l k' v).map Prod.fst := by
  induction l with
  | nil => simp at h
  | cons p rest ih =>
    obtain ⟨k0, v0⟩ := p
    simp only [List.map_cons, List.mem_cons] at h
    by_cases h0 : k0 = k'
    · subst h0
      simp only [upsertIndex, eq_self_iff_true, if_true, List.map_cons, List.mem_cons]
      rcases h with rfl | h
      · exact Or.inl rfl
      · exact Or.inr h
    · simp only [upsertIndex, if_neg h0, List.map_cons, List.mem_cons]
      rcases h with rfl | h
      · exact Or.inl rfl
      · exact Or.inr (ih h)

theorem ingest_loop_mono (rows : List ExpenseRow) (embedOk addOk : ExpenseRow → Bool) :
    ∀ st : IngestState,
      (∀ k, k ∈ st.index.map Prod.fst →
        k ∈ (rows.foldl (ingestStep embedOk addOk) st).index.map Prod.fst)
      ∧ ∀ i, i ∈ st.failedLog → i ∈ (rows.foldl (ingestStep embedOk addOk) st).failedLog := by
  induction rows with
  | nil => exact fun st => ⟨fun k h => h, fun i h => h⟩
  | cons r rest ih =>
    intro st
    rw [List.foldl_cons]
    refine ⟨fun k hk => (ih _).1 k ?_, fun i hi => (ih _).2 i ?_⟩
    · unfold ingestStep
      by_cases he : embedOk r
      · by_cases ha : addOk r
        · simp only [he, ha, if_true]
          exact mem_keys_upsertIndex_of_mem _ _ _ _ hk
        · simp only [he, ha, if_true, Bool.false_eq_true, if_false]
          exact hk
      · simp only [he, Bool.false_eq_true, if_false]
        exact hk
    · unfold ingestStep
      by_cases he : embedOk r
      · by_cases ha : addOk r
        · simp only [he, ha, if_true]
          exact hi
        · simp only [he, ha, if_true, Bool.false_eq_true, if_false]
          exact List.mem_append_left _ hi
      · simp only [he, Bool.false_eq_true, if_false]
        exact List.mem_append_left _ hi

theorem ingest_loop_processes (rows : List ExpenseRow) (embedOk addOk : ExpenseRow → Bool) :
    ∀ st : IngestState, ∀ r ∈ rows,
      ((embedOk r && addOk r) = false →
        r.id ∈ (rows.foldl (ingestStep embedOk addOk) st).failedLog)
      ∧ ((embedOk r && addOk r) = true →
        toString r.id ∈ (rows.foldl (ingestStep embedOk addOk) st).index.map Prod.fst) := by
  induction rows with
  | nil => intro st r hr; cases hr
  | cons q rest ih =>
    intro st r hr
    rw [List.foldl_cons]
    rcases List.mem_cons.mp hr with rfl | hr'
    · constructor
      · intro hf
        apply (ingest_loop_mono rest embedOk addOk _).2
        unfold ingestStep
        by_cases he : embedOk r
        · have ha : addOk r = false := by
            cases hb : addOk r
            · rfl
            · rw [he, hb] at hf; cases hf
          simp only [he, ha, if_true, Bool.false_eq_true, if_false]
          exact List.mem_append_right _ (List.mem_singleton.mpr rfl)
        · simp only [he, Bool.false_eq_true, if_false]
          exact List.mem_append_right _ (List.mem_singleton.mpr rfl)
      · intro ht
        apply (ingest_loop_mono rest embedOk addOk _).1
        have he : embedOk r = true := (Bool.and_eq_true_iff.mp ht).1
        have ha : addOk r = true := (Bool.and_eq_true_iff.mp ht).2
        unfold ingestStep
        simp only [he, ha, if_true]
        exact mem_keys_upsertIndex_self _ _ _
    · exact ih _ r hr'

/-- C8: during ingestion every record is processed independently: a record
whose embedding or index write fails ends up logged by id (and the run goes
on), while every record whose steps succeed is present in the index
afterward — irrespective of failures elsewhere in the batch. -/
theorem ingestion_isolates_failures (rows : List ExpenseRow)
    (embedOk addOk : ExpenseRow → Bool) (idx0 : List (String × Metadata)) :
    ∀ r ∈ rows,
      ((embedOk r && addOk r) = false →
        r.id ∈ (buildEmbeddings rows embedOk addOk idx0).1.failedLog)
      ∧ ((embedOk r && addOk r) = true →
        toString r.id ∈ (buildEmbeddings rows embedOk addOk idx0).1.index.map Prod.fst) := by
  intro r hr
  simpa [buildEmbeddings] using
    ingest_loop_processes rows embedOk addOk { index := idx0, failedLog := [] } r hr

/-- Five source rows for the spec's ingestion scenario. -/
def rowsFive : List ExpenseRow :=
  [{ id := 1, note := "groceries", amount := "10.00", expense_date := "2024-01-01" },
   { id := 2, note := "coffee", amount := "4.50", expense_date := "2024-01-02" },
   { id := 3, note := "rent", amount := "900.00", expense_date := "2024-01-03" },
   { id := 4, note := "gas", amount := "30.00", expense_date := "2024-01-04" },
   { id := 5, note := "books", amount := "25.00", expense_date := "2024-01-05" }]

/-- Embedding behaviour in which record #3 throws and all others succeed. -/
def embedFailsOn3 : ExpenseRow → Bool := fun r => r.id != 3

/-- External-call behaviour in which every call succeeds. -/
def alwaysOk : ExpenseRow → Bool := fun _ => true

/-- C7 counterexample: `buildEmbeddings` has no `return` statement, so the
run over 5 records with record #3 failing returns `undefined`, not the
claimed `{embedded: 4, failed: 1}` counts object. -/
theorem ingestion_returns_no_counts :
    (buildEmbeddings rowsFive embedFailsOn3 alwaysOk []).2 = none
    ∧ (buildEmbeddings rowsFive embedFailsOn3 alwaysOk []).2
        ≠ some { embedded := 4, failed := 1 } := by
  constructor
  · rfl
  · decide

/-- C7 amended: the run over 5 records where #3 throws on embedding leaves
the other four records in the index and logs exactly the one failed id, but
the function's JS return value is `undefined` — no `{embedded, failed}`
object is produced. -/
theorem ingestion_five_records_outcome :
    ((buildEmbeddings rowsFive embedFailsOn3 alwaysOk []).1.index.map Prod.fst)
        = ["1", "2", "4", "5"]
    ∧ (buildEmbeddings rowsFive embedFailsOn3 alwaysOk []).1.failedLog = [3]
    ∧ (buildEmbeddings rowsFive embedFailsOn3 alwaysOk []).2 = none := by
  refine ⟨by decide, by decide, rfl⟩

/-- Witness for C8: in the five-record run, the failing record's id 3 is
logged and the successful record 1 is present in the index. -/
theorem ingestion_isolates_failures_witness :
    (3 : Nat) ∈ (buildEmbeddings rowsFive embedFailsOn3 alwaysOk []).1.failedLog
    ∧ toString (1 : Nat)
        ∈ (buildEmbeddings rowsFive embedFailsOn3 alwaysOk []).1.index.map Prod.fst :=
  ⟨(ingestion_isolates_failures rowsFive embedFailsOn3 alwaysOk []
      { id := 3, note := "rent", amount := "900.00", expense_date := "2024-01-03" }
      (by decide)).1 (by decide),
   (ingestion_isolates_failures rowsFive embedFailsOn3 alwaysOk []
      { id := 1, note := "groceries", amount := "10.00", expense_date := "2024-01-01" }
      (by decide)).2 (by decide)⟩

end Spendr
